import Mathlib

/-!
Shallow embedding of the to-do list task store (src/src/todo.py).

The store keeps an in-memory ordered sequence of task records, loaded from a
backing JSON file at construction and rewritten wholesale after every
mutation.  File I/O is abstracted by a FileContent state: the file is either
absent, present but unparseable, or present with a decoded list of tasks.
Python dictionaries are modelled by a fixed-field record; the completed field
is an Option Bool because the read path tolerates its absence
(task.get with a False default).  Timestamps are opaque strings supplied by
the caller.  Each operation returns the new store state, the list of lines
printed to standard output, and a flag recording whether save was called.
-/

namespace Todo

/-- One task record: id, title, description, completion flag (optional in the
stored representation), creation timestamp. -/
structure Task where
  id : Int
  title : String
  description : String
  completed : Option Bool
  created_at : String
deriving DecidableEq, Repr

/-- Abstract state of the backing file: absent, present but not valid JSON,
or present holding a decoded task list. -/
inductive FileContent where
  | missing : FileContent
  | corrupt : FileContent
  | good : List Task → FileContent
deriving DecidableEq, Repr

/-- Embeds TodoApp._load_tasks: if the file exists, parse it; on a parse or
read failure print a diagnostic to stderr and return the empty list; if the
file does not exist return the empty list with no diagnostic.  The Bool
records whether the diagnostic was emitted. -/
def loadTasks : FileContent → List Task × Bool
  | FileContent.missing => ([], false)
  | FileContent.corrupt => ([], true)
  | FileContent.good l => (l, false)

/-- The store: in-memory task sequence plus the backing file state. -/
structure TodoApp where
  tasks : List Task
  file : FileContent
deriving DecidableEq, Repr

/-- Embeds TodoApp.__init__: load the tasks from the file eagerly.  The Bool
is the diagnostic flag of the load. -/
def TodoApp.init (f : FileContent) : TodoApp × Bool :=
  (⟨(loadTasks f).1, f⟩, (loadTasks f).2)

/-- Embeds TodoApp._save_tasks: serialize the in-memory sequence and
overwrite the backing file.  (A write failure exits the process; the model
covers the runs in which every save succeeds.) -/
def TodoApp.saveTasks (app : TodoApp) : TodoApp :=
  { app with file := FileContent.good app.tasks }

/-- Embeds the id generation of add_task, line 64:
max of the id generator with default 0.  Python's max of a nonempty
sequence folds max over it starting from the first element. -/
def maxIdDefault0 (tasks : List Task) : Int :=
  match tasks with
  | [] => 0
  | t :: ts => ts.foldl (fun m u => max m u.id) t.id

/-- Embeds TodoApp.add_task: compute next_id, append the new record with
completed false and the given timestamp, save, print the success line. -/
def TodoApp.add_task (app : TodoApp) (title : String) (description : String)
    (now : String) : TodoApp × List String × Bool :=
  let next_id := maxIdDefault0 app.tasks + 1
  let task : Task :=
    { id := next_id, title := title, description := description,
      completed := some false, created_at := now }
  let app1 : TodoApp := { app with tasks := app.tasks ++ [task] }
  (app1.saveTasks, ["✓ Task added: " ++ title], true)

/-- Embeds task.get with a False default, lines 89 and 98: a missing
completed field counts as not completed. -/
def taskCompleted (t : Task) : Bool := t.completed.getD false

/-- Embeds the subset selection of list_tasks, lines 87 to 89: all tasks when
show_completed is true, else only those not completed. -/
def shownTasks (tasks : List Task) (show_completed : Bool) : List Task :=
  if show_completed then tasks
  else tasks.filter (fun t => !taskCompleted t)

/-- The 60-dash rule printed around the listing. -/
def dashRule : String :=
  "------------------------------------------------------------"

/-- Embeds the per-task rendering of list_tasks, lines 97 to 101: status
glyph, id in brackets, title; a non-empty description adds an indented
continuation line. -/
def renderTask (t : Task) : List String :=
  ((if taskCompleted t then "✓" else "○") ++ " [" ++ toString t.id ++ "] "
      ++ t.title)
    :: (if t.description = "" then [] else ["    └─ " ++ t.description])

/-- Embeds TodoApp.list_tasks: empty store message, filtered-empty message,
or header, rendered tasks in sequence order, footer.  No mutation, no save. -/
def TodoApp.list_tasks (app : TodoApp) (show_completed : Bool) :
    TodoApp × List String × Bool :=
  if app.tasks = [] then (app, ["No tasks found."], false)
  else if shownTasks app.tasks show_completed = [] then
    (app, ["No incomplete tasks found."], false)
  else
    (app, ("\n📋 To-Do List:" :: dashRule
        :: (shownTasks app.tasks show_completed).flatMap renderTask)
      ++ [dashRule], false)

/-- Embeds the scan loop of complete_task, lines 111 to 116: find the first
task with the given id and set its completed field; none when absent. -/
def completeFirst (task_id : Int) : List Task → Option (List Task)
  | [] => none
  | t :: ts =>
    if t.id = task_id then some ({ t with completed := some true } :: ts)
    else Option.map (fun ts2 => t :: ts2) (completeFirst task_id ts)

/-- Embeds TodoApp.complete_task: on a match save and report success naming
the id, otherwise report not found naming the id. -/
def TodoApp.complete_task (app : TodoApp) (task_id : Int) :
    TodoApp × List String × Bool :=
  match completeFirst task_id app.tasks with
  | some ts2 =>
    (TodoApp.saveTasks { app with tasks := ts2 },
      ["✓ Task " ++ toString task_id ++ " marked as completed."], true)
  | none => (app, ["Task " ++ toString task_id ++ " not found."], false)

/-- Embeds TodoApp.delete_task: keep the tasks whose id differs; if the
length shrank, save and report success, else report not found. -/
def TodoApp.delete_task (app : TodoApp) (task_id : Int) :
    TodoApp × List String × Bool :=
  if (app.tasks.filter (fun t => decide (t.id ≠ task_id))).length
      < app.tasks.length then
    (TodoApp.saveTasks
      { app with
        tasks := app.tasks.filter (fun t => decide (t.id ≠ task_id)) },
      ["✓ Task " ++ toString task_id ++ " deleted."], true)
  else (app, ["Task " ++ toString task_id ++ " not found."], false)

/-- A mutating operation of the store, as dispatched by the CLI. -/
inductive Op where
  | add : String → String → String → Op
  | complete : Int → Op
  | delete : Int → Op
deriving DecidableEq, Repr

/-- Dispatch one mutating operation. -/
def applyOp (app : TodoApp) : Op → TodoApp × List String × Bool
  | Op.add t d n => app.add_task t d n
  | Op.complete i => app.complete_task i
  | Op.delete i => app.delete_task i

/-- Run a sequence of mutating operations, threading the store state. -/
def applyOps (app : TodoApp) : List Op → TodoApp
  | [] => app
  | op :: ops => applyOps (applyOp app op).1 ops

/-- The ids assigned by a sequence of add calls, in order. -/
def assignedIds (app : TodoApp) :
    List (String × String × String) → List Int
  | [] => []
  | (t, d, n) :: rest =>
    (maxIdDefault0 app.tasks + 1) :: assignedIds (app.add_task t d n).1 rest

/-- Concrete sample tasks mirroring the test fixture app_with_tasks. -/
def task1 : Task :=
  { id := 1, title := "Buy groceries", description := "Milk, eggs, bread",
    completed := some false, created_at := "t1" }

def task2 : Task :=
  { id := 2, title := "Complete project", description := "",
    completed := some false, created_at := "t2" }

def task3 : Task :=
  { id := 3, title := "Review pull requests", description := "Check team PRs",
    completed := some false, created_at := "t3" }

/-- A sample store holding tasks with ids 1, 2, 3, consistent with its file. -/
def sampleApp : TodoApp :=
  { tasks := [task1, task2, task3],
    file := FileContent.good [task1, task2, task3] }

/-- A second task sharing id 1, for the duplicate-id scenarios. -/
def dupTask : Task :=
  { id := 1, title := "duplicate", description := "",
    completed := some false, created_at := "t4" }

/-- A store whose loaded sequence contains two tasks with id 1. -/
def dupApp : TodoApp :=
  { tasks := [task1, dupTask, task2],
    file := FileContent.good [task1, dupTask, task2] }

/-- A store with no tasks, backed by a file that does not exist yet. -/
def emptyApp : TodoApp := { tasks := [], file := FileContent.missing }

/-- A store whose single task is already completed. -/
def allDoneApp : TodoApp :=
  { tasks := [{ task1 with completed := some true }],
    file := FileContent.good [{ task1 with completed := some true }] }

example :
    (((sampleApp.delete_task 3).1.add_task "x" "y" "t5").1.tasks.map Task.id)
      = [1, 2, 3] := by decide

example : (sampleApp.complete_task 1).1.tasks.map taskCompleted
    = [true, false, false] := by decide

example : (dupApp.delete_task 1).1.tasks = [task2] := by decide

example : (dupApp.complete_task 1).1.tasks
    = [{ task1 with completed := some true }, dupTask, task2] := by decide

/-! ### Helper lemmas -/

lemma foldl_max_le_init (ts : List Task) (b : Int) :
    b ≤ ts.foldl (fun m u => max m u.id) b := by
  induction ts generalizing b with
  | nil => simp
  | cons t ts ih =>
    exact le_trans (le_max_left b t.id) (ih (max b t.id))

lemma mem_le_foldl_max (ts : List Task) (b : Int) (u : Task) (hu : u ∈ ts) :
    u.id ≤ ts.foldl (fun m v => max m v.id) b := by
  induction ts generalizing b with
  | nil => cases hu
  | cons t ts ih =>
    rcases List.mem_cons.mp hu with h | h
    · subst h
      exact le_trans (le_max_right b u.id) (foldl_max_le_init ts (max b u.id))
    · exact ih (max b t.id) h

lemma mem_id_le_maxId (ts : List Task) (u : Task) (hu : u ∈ ts) :
    u.id ≤ maxIdDefault0 ts := by
  cases ts with
  | nil => cases hu
  | cons t rest =>
    rcases List.mem_cons.mp hu with h | h
    · subst h
      exact foldl_max_le_init rest u.id
    · exact mem_le_foldl_max rest t.id u h

lemma maxId_append_single_cons (u : Task) (us : List Task) (t : Task) :
    maxIdDefault0 ((u :: us) ++ [t]) = max (maxIdDefault0 (u :: us)) t.id := by
  simp [maxIdDefault0, List.foldl_append]

lemma maxId_snoc_next (ts : List Task) (t : Task)
    (hid : t.id = maxIdDefault0 ts + 1) :
    maxIdDefault0 (ts ++ [t]) = maxIdDefault0 ts + 1 := by
  cases ts with
  | nil =>
    simpa [maxIdDefault0] using hid
  | cons u us =>
    rw [maxId_append_single_cons u us t, hid, max_eq_right (by omega)]

lemma completeFirst_not_mem (i : Int) (ts : List Task)
    (h : i ∉ ts.map Task.id) : completeFirst i ts = none := by
  induction ts with
  | nil => rfl
  | cons t rest ih =>
    have h1 : ¬t.id = i := fun he => h (by simp [he])
    have h2 : i ∉ rest.map Task.id := fun hm => h (by simp [hm])
    simp [completeFirst, h1, ih h2]

lemma completeFirst_split (i : Int) (pre post : List Task) (t : Task)
    (hpre : ∀ u ∈ pre, u.id ≠ i) (ht : t.id = i) :
    completeFirst i (pre ++ t :: post)
      = some (pre ++ { t with completed := some true } :: post) := by
  induction pre with
  | nil => simp [completeFirst, ht]
  | cons u us ih =>
    have hu : ¬u.id = i := hpre u (by simp)
    have hus : ∀ v ∈ us, v.id ≠ i := fun v hv => hpre v (by simp [hv])
    simp [completeFirst, hu, ih hus]

lemma exists_first_match (i : Int) (ts : List Task)
    (h : i ∈ ts.map Task.id) :
    ∃ pre t post, ts = pre ++ t :: post ∧ (∀ u ∈ pre, u.id ≠ i)
      ∧ t.id = i := by
  induction ts with
  | nil => simp at h
  | cons t rest ih =>
    by_cases hti : t.id = i
    · exact ⟨[], t, rest, by simp, by simp, hti⟩
    · have hr : i ∈ rest.map Task.id := by
        rcases List.mem_cons.mp h with he | he
        · exact absurd he.symm hti
        · exact he
      obtain ⟨pre, u, post, he, hp, hu⟩ := ih hr
      refine ⟨t :: pre, u, post, by simp [he], ?_, hu⟩
      intro v hv
      rcases List.mem_cons.mp hv with rfl | hv
      · exact hti
      · exact hp v hv

lemma completeFirst_map_id (i : Int) (ts ts2 : List Task)
    (h : completeFirst i ts = some ts2) :
    ts2.map Task.id = ts.map Task.id := by
  induction ts generalizing ts2 with
  | nil => exact Option.noConfusion h
  | cons t rest ih =>
    rw [completeFirst] at h
    by_cases hti : t.id = i
    · rw [if_pos hti] at h
      cases h
      simp
    · rw [if_neg hti] at h
      cases hr : completeFirst i rest with
      | none => rw [hr] at h; simp at h
      | some r2 =>
        rw [hr] at h
        simp only [Option.map_some'] at h
        cases h
        simp [ih r2 hr]

lemma filter_ne_eq_self (i : Int) (ts : List Task)
    (h : i ∉ ts.map Task.id) :
    ts.filter (fun t => decide (t.id ≠ i)) = ts := by
  apply List.filter_eq_self.mpr
  intro a ha
  rw [decide_eq_true_eq]
  intro he
  exact h (List.mem_map.mpr ⟨a, ha, he⟩)

lemma length_filter_lt_of_mem (p : Task → Bool) (ts : List Task) (t : Task)
    (ht : t ∈ ts) (hp : p t = false) :
    (ts.filter p).length < ts.length := by
  induction ts with
  | nil => cases ht
  | cons u us ih =>
    rcases List.mem_cons.mp ht with rfl | h
    · rw [List.filter_cons, hp]
      simp only [List.length_cons]
      exact Nat.lt_succ_of_le (List.length_filter_le p us)
    · rw [List.filter_cons]
      cases hpu : p u
      · simp only [List.length_cons]
        exact Nat.lt_succ_of_lt (ih h)
      · simp only [List.length_cons]
        exact Nat.succ_lt_succ (ih h)

lemma nodup_add (app : TodoApp) (t d n : String)
    (h : (app.tasks.map Task.id).Nodup) :
    (((app.add_task t d n).1.tasks).map Task.id).Nodup := by
  have he : (app.add_task t d n).1.tasks
      = app.tasks ++
        [{ id := maxIdDefault0 app.tasks + 1, title := t, description := d,
           completed := some false, created_at := n }] := rfl
  rw [he, List.map_append]
  rw [List.nodup_append]
  refine ⟨h, List.nodup_singleton _, ?_⟩
  intro a ha hb
  simp only [List.map_cons, List.map_nil, List.mem_singleton] at hb
  obtain ⟨u, hu, hid⟩ := List.mem_map.mp ha
  have := mem_id_le_maxId app.tasks u hu
  rw [hid] at this
  rw [hb] at this
  omega

lemma maxId_add_task (app : TodoApp) (t d n : String) :
    maxIdDefault0 (app.add_task t d n).1.tasks
      = maxIdDefault0 app.tasks + 1 :=
  maxId_snoc_next app.tasks _ rfl

lemma nodup_applyOp (app : TodoApp) (op : Op)
    (h : (app.tasks.map Task.id).Nodup) :
    (((applyOp app op).1.tasks).map Task.id).Nodup := by
  cases op with
  | add t d n => exact nodup_add app t d n h
  | complete i =>
    show (((app.complete_task i).1.tasks).map Task.id).Nodup
    unfold TodoApp.complete_task
    cases hc : completeFirst i app.tasks with
    | none => exact h
    | some ts2 =>
      show ((ts2).map Task.id).Nodup
      rw [completeFirst_map_id i app.tasks ts2 hc]
      exact h
  | delete i =>
    show (((app.delete_task i).1.tasks).map Task.id).Nodup
    unfold TodoApp.delete_task
    by_cases hlt :
        (app.tasks.filter (fun u => decide (u.id ≠ i))).length
          < app.tasks.length
    · rw [if_pos hlt]
      exact List.Nodup.sublist
        (List.Sublist.map Task.id (List.filter_sublist app.tasks)) h
    · rw [if_neg hlt]
      exact h

lemma assignedIds_gt (adds : List (String × String × String)) :
    ∀ (app : TodoApp) (x : Int), x ∈ assignedIds app adds →
      maxIdDefault0 app.tasks < x := by
  induction adds with
  | nil =>
    intro app x hx
    cases hx
  | cons hd rest ih =>
    intro app x hx
    obtain ⟨t, d, n⟩ := hd
    rw [assignedIds] at hx
    rcases List.mem_cons.mp hx with rfl | hx
    · omega
    · have := ih (app.add_task t d n).1 x hx
      rw [maxId_add_task] at this
      omega

lemma assignedIds_pairwise (adds : List (String × String × String)) :
    ∀ app : TodoApp,
      List.Pairwise (fun a b => a < b) (assignedIds app adds) := by
  induction adds with
  | nil =>
    intro app
    exact List.Pairwise.nil
  | cons hd rest ih =>
    intro app
    obtain ⟨t, d, n⟩ := hd
    rw [assignedIds]
    refine List.Pairwise.cons ?_ (ih _)
    intro x hx
    have := assignedIds_gt rest (app.add_task t d n).1 x hx
    rw [maxId_add_task] at this
    omega

lemma complete_task_split (app : TodoApp) (i : Int) (pre post : List Task)
    (t : Task) (he : app.tasks = pre ++ t :: post)
    (hp : ∀ u ∈ pre, u.id ≠ i) (ht : t.id = i) :
    app.complete_task i
      = (⟨pre ++ { t with completed := some true } :: post,
          FileContent.good
            (pre ++ { t with completed := some true } :: post)⟩,
         ["✓ Task " ++ toString i ++ " marked as completed."], true) := by
  unfold TodoApp.complete_task
  rw [he, completeFirst_split i pre post t hp ht]
  rfl

lemma delete_task_found (app : TodoApp) (i : Int)
    (h : i ∈ app.tasks.map Task.id) :
    (app.delete_task i).1.tasks
        = app.tasks.filter (fun u => decide (u.id ≠ i)) ∧
    (app.delete_task i).2.1 = ["✓ Task " ++ toString i ++ " deleted."] ∧
    (app.delete_task i).2.2 = true := by
  obtain ⟨t, hmem, hid⟩ := List.mem_map.mp h
  have hpt : (fun u : Task => decide (u.id ≠ i)) t = false := by
    simp [hid]
  have hlt := length_filter_lt_of_mem (fun u => decide (u.id ≠ i))
    app.tasks t hmem hpt
  unfold TodoApp.delete_task
  rw [if_pos hlt]
  exact ⟨rfl, rfl, rfl⟩

lemma load_inv_applyOp (app : TodoApp) (op : Op)
    (h : app.tasks = (loadTasks app.file).1) :
    (applyOp app op).1.tasks = (loadTasks (applyOp app op).1.file).1 := by
  cases op with
  | add t d n => rfl
  | complete i =>
    show (app.complete_task i).1.tasks
      = (loadTasks (app.complete_task i).1.file).1
    unfold TodoApp.complete_task
    cases hc : completeFirst i app.tasks with
    | none => exact h
    | some ts2 => rfl
  | delete i =>
    show (app.delete_task i).1.tasks
      = (loadTasks (app.delete_task i).1.file).1
    unfold TodoApp.delete_task
    by_cases hlt :
        (app.tasks.filter (fun u => decide (u.id ≠ i))).length
          < app.tasks.length
    · rw [if_pos hlt]
      rfl
    · rw [if_neg hlt]
      exact h

lemma load_inv_applyOps (ops : List Op) :
    ∀ app : TodoApp, app.tasks = (loadTasks app.file).1 →
      (applyOps app ops).tasks = (loadTasks (applyOps app ops).file).1 := by
  induction ops with
  | nil => intro app h; exact h
  | cons op ops ih =>
    intro app h
    rw [applyOps]
    exact ih _ (load_inv_applyOp app op h)

/-! ### Claim theorems -/

/-- Claim C1: for every store state, add assigns the new task the id equal to
the maximum id currently present (0 when the store is empty) plus one,
appends the new task at the end with completed false and the given title and
description, then saves; and in the concrete store holding exactly ids
1, 2, 3, deleting id 3 followed by an add assigns id 3 to the new task. -/
theorem C1_add_assigns_max_plus_one (app : TodoApp)
    (title description now : String) :
    ((app.add_task title description now).1.tasks
        = app.tasks ++
          [{ id := maxIdDefault0 app.tasks + 1, title := title,
             description := description, completed := some false,
             created_at := now }]) ∧
    ((app.add_task title description now).1.file
        = FileContent.good (app.add_task title description now).1.tasks) ∧
    ((app.add_task title description now).2.2 = true) ∧
    ((((sampleApp.delete_task 3).1.add_task "x" "y" "t5").1.tasks.map Task.id)
        = [1, 2, 3]) :=
  ⟨rfl, rfl, rfl, by decide⟩

/-- Claim C4: for every store and every id absent from the sequence
(negative and zero ids included), complete and delete leave the store state
untouched, report the not-found message naming the id, and do not save. -/
theorem C4_absent_id_not_found (app : TodoApp) (i : Int)
    (h : i ∉ app.tasks.map Task.id) :
    app.complete_task i
        = (app, ["Task " ++ toString i ++ " not found."], false) ∧
    app.delete_task i
        = (app, ["Task " ++ toString i ++ " not found."], false) := by
  constructor
  · unfold TodoApp.complete_task
    rw [completeFirst_not_mem i app.tasks h]
  · have hk : app.tasks.filter (fun t => decide (t.id ≠ i)) = app.tasks :=
      filter_ne_eq_self i app.tasks h
    unfold TodoApp.delete_task
    rw [hk]
    simp

theorem C4_absent_id_not_found_witness :
    ((-1 : Int) ∉ sampleApp.tasks.map Task.id) ∧
    (sampleApp.complete_task (-1)
        = (sampleApp, ["Task " ++ toString (-1 : Int) ++ " not found."],
            false) ∧
      sampleApp.delete_task (-1)
        = (sampleApp, ["Task " ++ toString (-1 : Int) ++ " not found."],
            false)) :=
  ⟨by decide, C4_absent_id_not_found sampleApp (-1) (by decide)⟩

/-- Claim C7: constructing from a file with invalid contents yields the empty
sequence together with a diagnostic on the error stream; constructing from a
missing file yields the empty sequence with no diagnostic; constructing from
a readable file yields its decoded contents.  The load function is total, so
no failure escapes the load boundary. -/
theorem C7_load_failure_recovery :
    ((TodoApp.init FileContent.corrupt).1.tasks = []
      ∧ (TodoApp.init FileContent.corrupt).2 = true) ∧
    ((TodoApp.init FileContent.missing).1.tasks = []
      ∧ (TodoApp.init FileContent.missing).2 = false) ∧
    (∀ l : List Task, (TodoApp.init (FileContent.good l)).1.tasks = l
      ∧ (TodoApp.init (FileContent.good l)).2 = false) :=
  ⟨⟨rfl, rfl⟩, ⟨rfl, rfl⟩, fun _ => ⟨rfl, rfl⟩⟩

/-- Claim C8: list mutates nothing and never saves: for either value of
show_completed the store, its backing file included, is returned unchanged
and the saved flag is false. -/
theorem C8_list_no_mutation (app : TodoApp) (show_completed : Bool) :
    (app.list_tasks show_completed).1 = app
      ∧ (app.list_tasks show_completed).2.2 = false := by
  unfold TodoApp.list_tasks
  split
  · exact ⟨rfl, rfl⟩
  · split
    · exact ⟨rfl, rfl⟩
    · exact ⟨rfl, rfl⟩

/-- Claim C2: every operation preserves pairwise distinctness of the ids in
the store, and the ids assigned by any sequence of add calls are strictly
increasing. -/
theorem C2_ids_distinct_invariant :
    (∀ (app : TodoApp) (op : Op), (app.tasks.map Task.id).Nodup →
      (((applyOp app op).1.tasks).map Task.id).Nodup) ∧
    (∀ (app : TodoApp) (adds : List (String × String × String)),
      List.Pairwise (fun a b => a < b) (assignedIds app adds)) :=
  ⟨nodup_applyOp, fun app adds => assignedIds_pairwise adds app⟩

theorem C2_ids_distinct_invariant_witness :
    (sampleApp.tasks.map Task.id).Nodup ∧
      (((applyOp sampleApp (Op.delete 2)).1.tasks).map Task.id).Nodup :=
  ⟨by decide,
    C2_ids_distinct_invariant.1 sampleApp (Op.delete 2) (by decide)⟩

/-- Claim C3: for every initial file state and every sequence of mutations
(add, complete, delete; every save succeeds in the model), reconstructing a
store from the resulting backing file yields the same in-memory sequence as
the mutated store, in order and in every field. -/
theorem C3_round_trip (f : FileContent) (ops : List Op) :
    (TodoApp.init (applyOps (TodoApp.init f).1 ops).file).1.tasks
      = (applyOps (TodoApp.init f).1 ops).tasks :=
  (load_inv_applyOps ops (TodoApp.init f).1 rfl).symm

/-- Claim C5: list prints exactly the empty-store message on an empty store;
with show_completed true it selects every task; with show_completed false it
selects exactly the tasks not completed, a missing completed field counting
as not completed; the selection preserves sequence order; and a non-empty
store whose selection is empty gets the distinct no-incomplete message,
otherwise the selected tasks are rendered in order between the rules. -/
theorem C5_list_selection (app : TodoApp) (show_completed : Bool) :
    (app.tasks = [] →
      (app.list_tasks show_completed).2.1 = ["No tasks found."]) ∧
    (shownTasks app.tasks true = app.tasks) ∧
    (∀ t : Task, t ∈ shownTasks app.tasks false
        ↔ t ∈ app.tasks ∧ taskCompleted t = false) ∧
    (∀ t : Task, t.completed = none → taskCompleted t = false) ∧
    List.Sublist (shownTasks app.tasks show_completed) app.tasks ∧
    (app.tasks ≠ [] → shownTasks app.tasks show_completed = [] →
      (app.list_tasks show_completed).2.1 = ["No incomplete tasks found."]) ∧
    (app.tasks ≠ [] → shownTasks app.tasks show_completed ≠ [] →
      (app.list_tasks show_completed).2.1
        = ("\n📋 To-Do List:" :: dashRule
            :: (shownTasks app.tasks show_completed).flatMap renderTask)
          ++ [dashRule]) := by
  refine ⟨?_, rfl, ?_, ?_, ?_, ?_, ?_⟩
  · intro h
    unfold TodoApp.list_tasks
    rw [if_pos h]
  · intro t
    simp [shownTasks, List.mem_filter]
  · intro t h
    simp [taskCompleted, h]
  · cases show_completed
    · exact List.filter_sublist app.tasks
    · exact List.Sublist.refl app.tasks
  · intro h1 h2
    unfold TodoApp.list_tasks
    rw [if_neg h1, if_pos h2]
  · intro h1 h2
    unfold TodoApp.list_tasks
    rw [if_neg h1, if_neg h2]

theorem C5_list_selection_witness :
    (emptyApp.tasks = []
      ∧ (emptyApp.list_tasks false).2.1 = ["No tasks found."]) ∧
    (allDoneApp.tasks ≠ [] ∧ shownTasks allDoneApp.tasks false = []
      ∧ (allDoneApp.list_tasks false).2.1
          = ["No incomplete tasks found."]) :=
  ⟨⟨by decide, (C5_list_selection emptyApp false).1 (by decide)⟩,
    ⟨by decide, by decide,
      (C5_list_selection allDoneApp false).2.2.2.2.2.1
        (by decide) (by decide)⟩⟩

/-- Claim C6: when the store contains a task with the given id, completing it
twice leaves the store exactly as after the first call, and both calls report
the success message naming the id. -/
theorem C6_complete_idempotent (app : TodoApp) (i : Int)
    (h : i ∈ app.tasks.map Task.id) :
    (((app.complete_task i).1.complete_task i).1 = (app.complete_task i).1) ∧
    ((app.complete_task i).2.1
        = ["✓ Task " ++ toString i ++ " marked as completed."]) ∧
    (((app.complete_task i).1.complete_task i).2.1
        = (app.complete_task i).2.1) := by
  obtain ⟨pre, t, post, he, hp, ht⟩ := exists_first_match i app.tasks h
  have r1 := complete_task_split app i pre post t he hp ht
  have r2 := complete_task_split (app.complete_task i).1 i pre post
    { t with completed := some true } (by rw [r1]) hp ht
  refine ⟨?_, by rw [r1], ?_⟩
  · rw [r2, r1]
  · rw [r2, r1]

theorem C6_complete_idempotent_witness :
    ((1 : Int) ∈ sampleApp.tasks.map Task.id) ∧
    ((((sampleApp.complete_task 1).1.complete_task 1).1
        = (sampleApp.complete_task 1).1) ∧
      ((sampleApp.complete_task 1).2.1
        = ["✓ Task " ++ toString (1 : Int) ++ " marked as completed."]) ∧
      (((sampleApp.complete_task 1).1.complete_task 1).2.1
        = (sampleApp.complete_task 1).2.1)) :=
  ⟨by decide, C6_complete_idempotent sampleApp 1 (by decide)⟩

/-- Claim C9: when the store contains the id, complete rewrites only the
completed field of the first matching task, keeping every other task and
every other field of that task; delete keeps exactly the tasks with a
different id, preserving their relative order and field values. -/
theorem C9_mutation_frame (app : TodoApp) (i : Int) (pre post : List Task)
    (t : Task) (he : app.tasks = pre ++ t :: post)
    (hp : ∀ u ∈ pre, u.id ≠ i) (ht : t.id = i) :
    ((app.complete_task i).1.tasks
        = pre ++ { t with completed := some true } :: post) ∧
    List.Sublist (app.delete_task i).1.tasks app.tasks ∧
    (∀ u : Task, u ∈ (app.delete_task i).1.tasks
        ↔ u ∈ app.tasks ∧ u.id ≠ i) := by
  have hmemid : i ∈ app.tasks.map Task.id := by
    rw [he]
    exact List.mem_map.mpr ⟨t, by simp, ht⟩
  have hd := (delete_task_found app i hmemid).1
  refine ⟨by rw [complete_task_split app i pre post t he hp ht], ?_, ?_⟩
  · rw [hd]
    exact List.filter_sublist app.tasks
  · intro u
    rw [hd]
    simp [List.mem_filter]

theorem C9_mutation_frame_witness :
    (sampleApp.tasks = [task1] ++ task2 :: [task3]
      ∧ (∀ u ∈ [task1], u.id ≠ (2 : Int)) ∧ task2.id = 2) ∧
    (((sampleApp.complete_task 2).1.tasks
        = [task1] ++ { task2 with completed := some true } :: [task3]) ∧
      List.Sublist (sampleApp.delete_task 2).1.tasks sampleApp.tasks ∧
      (∀ u : Task, u ∈ (sampleApp.delete_task 2).1.tasks
          ↔ u ∈ sampleApp.tasks ∧ u.id ≠ 2)) :=
  ⟨⟨by decide, by decide, by decide⟩,
    C9_mutation_frame sampleApp 2 [task1] [task3] task2
      (by decide) (by decide) (by decide)⟩

/-- Claim C10: when several loaded tasks share the given id, complete marks
only the first matching task completed, while a single delete call removes
every task with that id and keeps every task with another id. -/
theorem C10_duplicate_id_asymmetry (app : TodoApp) (i : Int)
    (h : i ∈ app.tasks.map Task.id) :
    (∃ pre t post, app.tasks = pre ++ t :: post
        ∧ (∀ u ∈ pre, u.id ≠ i) ∧ t.id = i
        ∧ (app.complete_task i).1.tasks
            = pre ++ { t with completed := some true } :: post) ∧
    (∀ u : Task, u ∈ (app.delete_task i).1.tasks → u.id ≠ i) ∧
    (∀ u : Task, u ∈ app.tasks → u.id ≠ i →
        u ∈ (app.delete_task i).1.tasks) := by
  obtain ⟨pre, t, post, he, hp, ht⟩ := exists_first_match i app.tasks h
  have hd := (delete_task_found app i h).1
  refine ⟨⟨pre, t, post, he, hp, ht,
    by rw [complete_task_split app i pre post t he hp ht]⟩, ?_, ?_⟩
  · intro u hu
    rw [hd] at hu
    exact of_decide_eq_true (List.mem_filter.mp hu).2
  · intro u hu hne
    rw [hd]
    exact List.mem_filter.mpr ⟨hu, by simpa using hne⟩

theorem C10_duplicate_id_asymmetry_witness :
    ((1 : Int) ∈ dupApp.tasks.map Task.id) ∧
    ((∃ pre t post, dupApp.tasks = pre ++ t :: post
        ∧ (∀ u ∈ pre, u.id ≠ (1 : Int)) ∧ t.id = 1
        ∧ (dupApp.complete_task 1).1.tasks
            = pre ++ { t with completed := some true } :: post) ∧
      (∀ u : Task, u ∈ (dupApp.delete_task 1).1.tasks → u.id ≠ 1) ∧
      (∀ u : Task, u ∈ dupApp.tasks → u.id ≠ 1 →
          u ∈ (dupApp.delete_task 1).1.tasks)) :=
  ⟨by decide, C10_duplicate_id_asymmetry dupApp 1 (by decide)⟩

end Todo
